import Mathlib

/-
  Verification development for ngx_http_no_newlines_module.c.

  The body-filter core is embedded as a small-step machine over an explicit
  byte memory.  Modelling conventions:

  * Memory is a total function `Nat → Nat` (byte values; the C code reads
    past the buffer end, so reads at arbitrary addresses must be defined;
    addresses beyond a buffer built with `listMem` read as 0, modelling
    zeroed adjacent memory).
  * A buffer is a window `[pos, last)` of that memory together with the
    read cursor (`reader`) and write cursor (`writer`) of
    ngx_http_no_newlines_strip_buffer.
  * `ngx_http_no_newlines_handle_tags` and the preformatted-text scanner
    receive the cursors BY VALUE in the C code; this is modelled exactly:
    `ngx_http_no_newlines_handle_tags` is a pure function of (memory,
    reader, writer, state) that returns only (memory, state), and the
    scanner's own local cursors live in the `Phase.scan ir iw` control
    state while the outer `r`/`w` stay frozen.
  * The scanner's do/while loop has no bound, so the machine is driven by
    fuel (`run fuel`); a configuration whose phase never reaches
    `Phase.done` under any fuel models the non-terminating overrun.
  * The build is assumed LP64: `sizeof("pre" - 1)` and
    `sizeof("text/html" - 1)` are the size of a pointer, 8.
-/

/-- Byte memory: a total map from addresses to byte values. -/
def Mem : Type := Nat → Nat

/-- Single store `m[i] := v`. -/
def upd (m : Mem) (i v : Nat) : Mem := fun j => if j = i then v else m j

/-- Memory holding the bytes of `l` at addresses `0, 1, ...` and 0 beyond. -/
def listMem : List Nat → Mem
  | [] => fun _ => 0
  | b :: l => fun i =>
      match i with
      | 0 => b
      | Nat.succ i => listMem l i

/-- Read `n` consecutive bytes starting at address `a`. -/
def readZone (m : Mem) (a : Nat) : Nat → List Nat
  | 0 => []
  | Nat.succ n => m a :: readZone m (a + 1) n

/-- Store the bytes of `l` at consecutive addresses starting at `w`. -/
def writeZone (m : Mem) (w : Nat) : List Nat → Mem
  | [] => m
  | b :: l => writeZone (upd m w b) (w + 1) l

/-- The sequential byte-copy loop `for (i = 0; i < k; i++) *writer++ = *reader++;`. -/
def seqCopy (m : Mem) (src dst : Nat) : Nat → Mem
  | 0 => m
  | Nat.succ k => seqCopy (upd m dst (m src)) (src + 1) (dst + 1) k

/-- Drop every carriage return (13) and line feed (10) from a byte list. -/
def filterCRLF (l : List Nat) : List Nat :=
  l.filter (fun b => !(b == 13 || b == 10))

/-- The per-character lowering done inside ngx_strncasecmp:
    `(c >= 'A' && c <= 'Z') ? (c | 0x20) : c`. -/
def lowerByte (c : Nat) : Nat := if 65 ≤ c ∧ c ≤ 90 then c.lor 32 else c

/-- ngx_strncasecmp(s1, s2, n) where `s1` is a pointer `p` into memory `m`
    and `s2` is a NUL-terminated string literal given with its terminator
    (reads past the terminator do not occur: the comparison returns once
    both sides hit NUL or they differ). -/
def ngx_strncasecmp (m : Mem) (p : Nat) (lit : List Nat) : Nat → Int
  | 0 => 0
  | Nat.succ n =>
      if lowerByte (m p) = lowerByte (lit.headD 0) then
        if lowerByte (m p) = 0 then 0 else ngx_strncasecmp m (p + 1) lit.tail n
      else (lowerByte (m p) : Int) - (lowerByte (lit.headD 0) : Int)

/-- The bytes of the literal "pre" with its NUL terminator. -/
def preBytes : List Nat := [112, 114, 101, 0]

/-- is_tag_pre(reader): `ngx_strncasecmp(reader, "pre", sizeof("pre" - 1)) == 0`.
    `"pre" - 1` is pointer arithmetic, so the third argument is
    `sizeof(u_char *)` = 8 on an LP64 build, not 3. -/
def is_tag_pre (m : Mem) (reader : Nat) : Bool :=
  ngx_strncasecmp m reader preBytes 8 == 0

/-- The ngx_http_no_newlines_state_e enum: state_text, state_abort, state_tag_pre. -/
inductive FState
  | text
  | abort
  | tag_pre
deriving DecidableEq

/-- Control location of the strip_buffer machine.  `outer` is the top of the
    for loop; `scan ir iw` is inside ngx_http_no_newlines_ignore_preformatted_text
    at the test `*reader != '/'`, with the callee's own (by-value) cursor
    copies `ir`/`iw`; `done` is after `buffer->last = writer`. -/
inductive Phase
  | outer
  | scan (ir iw : Nat)
  | done
deriving DecidableEq

/-- Machine configuration: memory, the outer loop's reader/writer cursors,
    the context state `ctx->state`, and the control location. -/
structure Cfg where
  mem : Mem
  r : Nat
  w : Nat
  st : FState
  ph : Phase

/-- ngx_http_no_newlines_handle_tags(reader, writer, ctx): writes the `<`,
    then if is_tag_pre succeeds on the next bytes, sets state_tag_pre and
    copies three bytes.  The cursor parameters are by-value copies, so only
    the memory writes and the ctx state survive the call. -/
def ngx_http_no_newlines_handle_tags (m : Mem) (reader writer : Nat) (st : FState) :
    Mem × FState :=
  if is_tag_pre (upd m writer (m reader)) (reader + 1) then
    (seqCopy (upd m writer (m reader)) (reader + 1) (writer + 1) 3, FState.tag_pre)
  else (upd m writer (m reader), st)

/-- One step of the strip_buffer machine (buffer end at address `last`). -/
def step (last : Nat) : Cfg → Cfg
  | ⟨mem, r, w, st, Phase.scan ir iw⟩ =>
      if mem ir ≠ 47 then
        ⟨upd mem iw (mem ir), r, w, st, Phase.scan (ir + 1) (iw + 1)⟩
      else
        if is_tag_pre (upd mem iw (mem ir)) (ir + 1) then
          ⟨upd (seqCopy (upd mem iw (mem ir)) (ir + 1) (iw + 1) 3) w
               ((seqCopy (upd mem iw (mem ir)) (ir + 1) (iw + 1) 3) r),
           r + 1, w + 1, FState.text, Phase.outer⟩
        else
          ⟨upd mem iw (mem ir), r, w, st, Phase.scan (ir + 1) (iw + 1)⟩
  | ⟨mem, r, w, FState.text, Phase.outer⟩ =>
      if r < last then
        if mem r = 13 ∨ mem r = 10 then ⟨mem, r + 1, w, FState.text, Phase.outer⟩
        else if mem r = 60 then
          ⟨upd (ngx_http_no_newlines_handle_tags mem r w FState.text).1 w
               ((ngx_http_no_newlines_handle_tags mem r w FState.text).1 r),
           r + 1, w + 1, (ngx_http_no_newlines_handle_tags mem r w FState.text).2,
           Phase.outer⟩
        else ⟨upd mem w (mem r), r + 1, w + 1, FState.text, Phase.outer⟩
      else ⟨mem, r, w, FState.text, Phase.done⟩
  | ⟨mem, r, w, FState.tag_pre, Phase.outer⟩ =>
      if r < last then ⟨mem, r, w, FState.tag_pre, Phase.scan r w⟩
      else ⟨mem, r, w, FState.tag_pre, Phase.done⟩
  | ⟨mem, r, w, FState.abort, Phase.outer⟩ =>
      if r < last then ⟨upd mem w (mem r), r + 1, w + 1, FState.abort, Phase.outer⟩
      else ⟨mem, r, w, FState.abort, Phase.done⟩
  | ⟨mem, r, w, st, Phase.done⟩ => ⟨mem, r, w, st, Phase.done⟩

/-- Iterate `step` for `fuel` steps. -/
def run (fuel last : Nat) (c : Cfg) : Cfg :=
  match fuel with
  | 0 => c
  | Nat.succ n => run n last (step last c)

/-- Initial configuration: both cursors at `buffer->pos`, at the for-loop head. -/
def initCfg (mem : Mem) (pos : Nat) (st : FState) : Cfg :=
  ⟨mem, pos, pos, st, Phase.outer⟩

/-- ngx_http_no_newlines_strip_buffer on the window `[pos, last)` starting
    in context state `st`: if the machine completes within `fuel` steps it
    returns the final memory, the new `buffer->last` (the final writer) and
    the final context state; otherwise `none`. -/
def ngx_http_no_newlines_strip_buffer (fuel : Nat) (mem : Mem) (pos last : Nat)
    (st : FState) : Option (Mem × Nat × FState) :=
  if (run fuel last (initCfg mem pos st)).ph = Phase.done then
    some ((run fuel last (initCfg mem pos st)).mem,
          (run fuel last (initCfg mem pos st)).w,
          (run fuel last (initCfg mem pos st)).st)
  else none

/-- strip_buffer on a buffer given as a byte list (its own fresh memory,
    `pos = 0`, `last` = its length), returning the output bytes and state. -/
def stripBufList (fuel : Nat) (b : List Nat) (st : FState) :
    Option (List Nat × FState) :=
  match ngx_http_no_newlines_strip_buffer fuel (listMem b) 0 b.length st with
  | none => none
  | some (m, w, st') => some (readZone m 0 w, st')

/-- The body filter's chain loop: strip each buffer in order, threading the
    context state. -/
def body_go (fuel : Nat) (st : FState) :
    List (List Nat) → Option (List (List Nat) × FState)
  | [] => some ([], st)
  | b :: rest =>
      match stripBufList fuel b st with
      | none => none
      | some (out, st') =>
          match body_go fuel st' rest with
          | none => none
          | some (outs, stf) => some (out :: outs, stf)

/-- ngx_http_no_newlines_body_filter: with no attached context the chain is
    forwarded untouched; with a context the state is set to state_text and
    every buffer of the chain is stripped in order.  Returns the forwarded
    chain and the final context, or `none` if a buffer's scan never
    completes (the C code loops/overruns there). -/
def ngx_http_no_newlines_body_filter (fuel : Nat) (ctx : Option FState)
    (bufs : List (List Nat)) : Option (List (List Nat) × Option FState) :=
  match ctx with
  | none => some (bufs, none)
  | some _ =>
      match body_go fuel FState.text bufs with
      | none => none
      | some (outs, stf) => some (outs, some stf)

/-- Response metadata consumed by the header filter. -/
structure HeadersOut where
  status : Nat
  header_only : Bool
  content_type : List Nat
  content_encoding : Option (List Nat)

/-- Result of the header filter: the attached context (if any) and whether
    the content-length and accept-ranges headers were cleared. -/
structure HeaderDecision where
  ctx : Option FState
  cleared_content_length : Bool
  cleared_accept_ranges : Bool
deriving DecidableEq

/-- The bytes of the literal "text/html" with its NUL terminator. -/
def textHtmlBytes : List Nat := [116, 101, 120, 116, 47, 104, 116, 109, 108, 0]

/-- The C test `r->headers_out.content_encoding &&
    r->headers_out.content_encoding->value.len`. -/
def encodingSet : Option (List Nat) → Bool
  | none => false
  | some v => v.length != 0

/-- ngx_http_no_newlines_header_filter: the eligibility gate.  The
    content-type comparison is `ngx_strncasecmp(ct, "text/html",
    sizeof("text/html" - 1))`, and `sizeof("text/html" - 1)` is the size of
    a pointer, 8 on an LP64 build, so only the first 8 bytes "text/htm"
    are compared. -/
def ngx_http_no_newlines_header_filter (h : HeadersOut) : HeaderDecision :=
  if (h.status ≠ 200 ∧ h.status ≠ 403 ∧ h.status ≠ 404) ∨ h.header_only = true ∨
      h.content_type.length = 0 ∨ encodingSet h.content_encoding = true then
    ⟨none, false, false⟩
  else if ngx_strncasecmp (listMem h.content_type) 0 textHtmlBytes 8 ≠ 0 then
    ⟨none, false, false⟩
  else
    ⟨some FState.text, true, true⟩

/-- The bytes of `"<pre>\r\nfoo\r\n</pre>"`. -/
def c1Input : List Nat :=
  [60, 112, 114, 101, 62, 13, 10, 102, 111, 111, 13, 10, 60, 47, 112, 114, 101, 62]

/-- The bytes of `"<pre>foo</pre>"`. -/
def c1Expected : List Nat :=
  [60, 112, 114, 101, 62, 102, 111, 111, 60, 47, 112, 114, 101, 62]

/-- The bytes of `"<pre\0x"`: a window where is_tag_pre does fire (the byte
    after "pre" is NUL). -/
def c3buf : List Nat := [60, 112, 114, 101, 0, 120]

/-- The bytes of `"x/pre>"`: a closing pre tag as it appears in real HTML,
    scanned from the preformatted state. -/
def c4buf : List Nat := [120, 47, 112, 114, 101, 62]

/-- The bytes of `"<pre"`: an opening pre tag at the very end of a buffer
    (the classifier peek reads past the end into zeroed memory). -/
def c7buf : List Nat := [60, 112, 114, 101]

/-- The bytes of `"text/htmQ"`. -/
def ctHtmQ : List Nat := [116, 101, 120, 116, 47, 104, 116, 109, 81]

/- Basic facts about the memory primitives. -/

theorem upd_apply (m : Mem) (i v j : Nat) : upd m i v j = if j = i then v else m j := rfl

theorem upd_out (m : Mem) (i v j : Nat) (h : j ≠ i) : upd m i v j = m j := by
  simp [upd, h]

theorem upd_self_read (m : Mem) (w r v : Nat) (h : m r = v) : upd m w v r = v := by
  by_cases hrw : r = w <;> simp [upd, hrw, h]

theorem upd_at (m : Mem) (i v : Nat) : upd m i v i = v := by
  simp [upd]

theorem upd_upd_same (m : Mem) (i a b : Nat) : upd (upd m i a) i b = upd m i b := by
  funext j
  by_cases h : j = i <;> simp [upd, h]

theorem listMem_ge : ∀ (l : List Nat) (j : Nat), l.length ≤ j → listMem l j = 0 := by
  intro l
  induction l with
  | nil => intro j _; rfl
  | cons b l ih =>
      intro j hj
      cases j with
      | zero => simp at hj
      | succ j' =>
          have hj' : l.length ≤ j' := by
            simp only [List.length_cons] at hj
            omega
          exact ih j' hj'

theorem readZone_succ (m : Mem) (a n : Nat) :
    readZone m a (n + 1) = m a :: readZone m (a + 1) n := rfl

theorem readZone_congr : ∀ (n : Nat) (m1 m2 : Mem) (a : Nat),
    (∀ j, a ≤ j → j < a + n → m1 j = m2 j) → readZone m1 a n = readZone m2 a n := by
  intro n
  induction n with
  | zero => intro m1 m2 a _; rfl
  | succ n ih =>
      intro m1 m2 a h
      rw [readZone_succ, readZone_succ, h a le_rfl (by omega),
        ih m1 m2 (a + 1) (fun j h1 h2 => h j (by omega) (by omega))]

theorem writeZone_lt : ∀ (l : List Nat) (m : Mem) (w j : Nat), j < w →
    writeZone m w l j = m j := by
  intro l
  induction l with
  | nil => intro m w j _; rfl
  | cons b l ih =>
      intro m w j hj
      show writeZone (upd m w b) (w + 1) l j = m j
      rw [ih (upd m w b) (w + 1) j (by omega), upd_out m w b j (by omega)]

theorem readZone_writeZone : ∀ (l : List Nat) (m : Mem) (w : Nat),
    readZone (writeZone m w l) w l.length = l := by
  intro l
  induction l with
  | nil => intro m w; rfl
  | cons b l ih =>
      intro m w
      show readZone (writeZone (upd m w b) (w + 1) l) w (l.length + 1) = b :: l
      rw [readZone_succ, writeZone_lt l (upd m w b) (w + 1) w (by omega),
        upd_at m w b, ih (upd m w b) (w + 1)]

theorem strncasecmp_congr : ∀ (n : Nat) (lit : List Nat) (m1 m2 : Mem) (p : Nat),
    (∀ j, p ≤ j → j < p + n → m1 j = m2 j) →
    ngx_strncasecmp m1 p lit n = ngx_strncasecmp m2 p lit n := by
  intro n
  induction n with
  | zero => intro lit m1 m2 p _; rfl
  | succ n ih =>
      intro lit m1 m2 p h
      have hp : m1 p = m2 p := h p le_rfl (by omega)
      show (if lowerByte (m1 p) = lowerByte (lit.headD 0) then
              if lowerByte (m1 p) = 0 then 0
              else ngx_strncasecmp m1 (p + 1) lit.tail n
            else (lowerByte (m1 p) : Int) - (lowerByte (lit.headD 0) : Int)) =
           (if lowerByte (m2 p) = lowerByte (lit.headD 0) then
              if lowerByte (m2 p) = 0 then 0
              else ngx_strncasecmp m2 (p + 1) lit.tail n
            else (lowerByte (m2 p) : Int) - (lowerByte (lit.headD 0) : Int))
      rw [hp, ih lit.tail m1 m2 (p + 1) (fun j h1 h2 => h j (by omega) (by omega))]

theorem is_tag_pre_congr (m1 m2 : Mem) (t : Nat)
    (h : ∀ j, t ≤ j → j < t + 8 → m1 j = m2 j) : is_tag_pre m1 t = is_tag_pre m2 t := by
  unfold is_tag_pre
  rw [strncasecmp_congr 8 preBytes m1 m2 t h]

/- Characterizations of single machine steps. -/

theorem step_text_skip (last : Nat) (mem : Mem) (r w : Nat) (hr : r < last)
    (hb : mem r = 13 ∨ mem r = 10) :
    step last ⟨mem, r, w, FState.text, Phase.outer⟩ =
      ⟨mem, r + 1, w, FState.text, Phase.outer⟩ := by
  simp [step, hr, hb]

theorem step_text_copy_other (last : Nat) (mem : Mem) (r w : Nat) (hr : r < last)
    (h13 : mem r ≠ 13) (h10 : mem r ≠ 10) (h60 : mem r ≠ 60) :
    step last ⟨mem, r, w, FState.text, Phase.outer⟩ =
      ⟨upd mem w (mem r), r + 1, w + 1, FState.text, Phase.outer⟩ := by
  simp [step, hr, h13, h10, h60]

theorem step_text_tag_nopre (last : Nat) (mem : Mem) (r w : Nat) (hr : r < last)
    (h60 : mem r = 60) (hpre : is_tag_pre (upd mem w (mem r)) (r + 1) = false) :
    step last ⟨mem, r, w, FState.text, Phase.outer⟩ =
      ⟨upd mem w (mem r), r + 1, w + 1, FState.text, Phase.outer⟩ := by
  have hb : ¬(mem r = 13 ∨ mem r = 10) := by rw [h60]; decide
  simp only [step]
  rw [if_pos hr, if_neg hb, if_pos h60]
  simp only [ngx_http_no_newlines_handle_tags]
  rw [if_neg (by simp [hpre])]
  have h1 : upd mem w (mem r) r = mem r := upd_self_read mem w r (mem r) rfl
  simp [h1, upd_upd_same]

theorem step_scan_continue (last : Nat) (mem : Mem) (r w : Nat) (st : FState) (ir iw : Nat)
    (hs : mem ir ≠ 47) :
    step last ⟨mem, r, w, st, Phase.scan ir iw⟩ =
      ⟨upd mem iw (mem ir), r, w, st, Phase.scan (ir + 1) (iw + 1)⟩ := by
  simp [step, hs]

/-- Running the machine over a window that never triggers the pre-tag match
    stays in state_text and copies exactly the non-CR/LF bytes down to the
    write cursor. -/
theorem textRun : ∀ (k : Nat) (mem : Mem) (r w last : Nat),
    w ≤ r → last = r + k →
    (∀ i, r ≤ i → i < last → mem i = 60 → is_tag_pre mem (i + 1) = false) →
    run (k + 1) last ⟨mem, r, w, FState.text, Phase.outer⟩ =
      ⟨writeZone mem w (filterCRLF (readZone mem r k)), last,
       w + (filterCRLF (readZone mem r k)).length, FState.text, Phase.done⟩ := by
  intro k
  induction k with
  | zero =>
      intro mem r w last hwr hlast H
      rw [hlast]
      have hnr : ¬(r < r + 0) := by omega
      show step (r + 0) ⟨mem, r, w, FState.text, Phase.outer⟩ = _
      simp [step, hnr, readZone, filterCRLF, writeZone]
  | succ k ih =>
      intro mem r w last hwr hlast H
      subst hlast
      have hr : r < r + (k + 1) := by omega
      show run (k + 1) (r + (k + 1))
          (step (r + (k + 1)) ⟨mem, r, w, FState.text, Phase.outer⟩) = _
      by_cases hb : mem r = 13 ∨ mem r = 10
      · rw [step_text_skip (r + (k + 1)) mem r w hr hb]
        rw [ih mem (r + 1) w (r + (k + 1)) (by omega) (by omega)
          (fun i h1 h2 => H i (by omega) h2)]
        rw [readZone_succ]
        have hf : filterCRLF (mem r :: readZone mem (r + 1) k) =
            filterCRLF (readZone mem (r + 1) k) := by
          rcases hb with h | h <;> simp [filterCRLF, h]
        rw [hf]
      · have h13 : mem r ≠ 13 := fun h => hb (Or.inl h)
        have h10 : mem r ≠ 10 := fun h => hb (Or.inr h)
        have hstep : step (r + (k + 1)) ⟨mem, r, w, FState.text, Phase.outer⟩ =
            ⟨upd mem w (mem r), r + 1, w + 1, FState.text, Phase.outer⟩ := by
          by_cases h60 : mem r = 60
          · have hagree : ∀ j, r + 1 ≤ j → j < r + 1 + 8 →
                upd mem w (mem r) j = mem j :=
              fun j h1 _ => upd_out mem w (mem r) j (by omega)
            have hpre : is_tag_pre (upd mem w (mem r)) (r + 1) = false := by
              rw [is_tag_pre_congr (upd mem w (mem r)) mem (r + 1) hagree]
              exact H r le_rfl (by omega) h60
            exact step_text_tag_nopre (r + (k + 1)) mem r w hr h60 hpre
          · exact step_text_copy_other (r + (k + 1)) mem r w hr h13 h10 h60
        rw [hstep]
        have Hnew : ∀ i, r + 1 ≤ i → i < r + (k + 1) → upd mem w (mem r) i = 60 →
            is_tag_pre (upd mem w (mem r)) (i + 1) = false := by
          intro i h1 h2 h3
          have hig : upd mem w (mem r) i = mem i := upd_out mem w (mem r) i (by omega)
          rw [is_tag_pre_congr (upd mem w (mem r)) mem (i + 1)
            (fun j hj1 hj2 => upd_out mem w (mem r) j (by omega))]
          exact H i (by omega) h2 (by rw [← hig]; exact h3)
        rw [ih (upd mem w (mem r)) (r + 1) (w + 1) (r + (k + 1)) (by omega) (by omega) Hnew]
        have hz2 : readZone (upd mem w (mem r)) (r + 1) k = readZone mem (r + 1) k :=
          readZone_congr k (upd mem w (mem r)) mem (r + 1)
            (fun j h1 h2 => upd_out mem w (mem r) j (by omega))
        rw [hz2, readZone_succ]
        have hf : filterCRLF (mem r :: readZone mem (r + 1) k) =
            mem r :: filterCRLF (readZone mem (r + 1) k) := by
          simp [filterCRLF, h13, h10]
        rw [hf]
        have hw : writeZone mem w (mem r :: filterCRLF (readZone mem (r + 1) k)) =
            writeZone (upd mem w (mem r)) (w + 1) (filterCRLF (readZone mem (r + 1) k)) := rfl
        rw [hw, List.length_cons]
        have hl : w + ((filterCRLF (readZone mem (r + 1) k)).length + 1) =
            w + 1 + (filterCRLF (readZone mem (r + 1) k)).length := by omega
        rw [hl]

/-- Once the scanner is searching for a slash in a memory region that holds
    no 47 byte at or after its read cursor, it scans forever: the phase
    stays `scan` and the context state never changes. -/
theorem scanStuck : ∀ (fuel last : Nat) (c : Cfg) (ir iw : Nat),
    c.ph = Phase.scan ir iw → iw ≤ ir → (∀ j, ir ≤ j → c.mem j ≠ 47) →
    (run fuel last c).ph ≠ Phase.done ∧ (run fuel last c).st = c.st := by
  intro fuel
  induction fuel with
  | zero =>
      intro last c ir iw hph hiw hmem
      refine ⟨?_, rfl⟩
      show c.ph ≠ Phase.done
      rw [hph]
      simp
  | succ n ih =>
      intro last c ir iw hph hiw hmem
      obtain ⟨mem, r, w, st, ph⟩ := c
      have hph' : ph = Phase.scan ir iw := hph
      subst hph'
      have hs : mem ir ≠ 47 := hmem ir le_rfl
      show (run n last (step last ⟨mem, r, w, st, Phase.scan ir iw⟩)).ph ≠ Phase.done ∧
           (run n last (step last ⟨mem, r, w, st, Phase.scan ir iw⟩)).st = st
      rw [step_scan_continue last mem r w st ir iw hs]
      have hmem' : ∀ j, ir + 1 ≤ j → upd mem iw (mem ir) j ≠ 47 := by
        intro j hj
        rw [upd_out mem iw (mem ir) j (by omega)]
        exact hmem j (by omega)
      exact ih last ⟨upd mem iw (mem ir), r, w, st, Phase.scan (ir + 1) (iw + 1)⟩
        (ir + 1) (iw + 1) rfl (by omega) hmem'

/-- The cursor invariant of a configuration: the outer write cursor is at or
    behind the outer read cursor, the read cursor never passes the buffer
    end, and while the scanner is active its own write cursor is at or
    behind its own read cursor (and the outer read cursor is strictly
    inside the buffer). -/
def CursorInv (last : Nat) (c : Cfg) : Prop :=
  c.w ≤ c.r ∧ c.r ≤ last ∧
  ∀ ir iw, c.ph = Phase.scan ir iw → iw ≤ ir ∧ c.r < last

theorem step_Inv (last : Nat) (c : Cfg) (h : CursorInv last c) : CursorInv last (step last c) := by
  obtain ⟨mem, r, w, st, ph⟩ := c
  obtain ⟨h1, h2, h3⟩ := h
  dsimp only at h1 h2 h3
  cases ph with
  | done =>
      have hstep : step last ⟨mem, r, w, st, Phase.done⟩ = ⟨mem, r, w, st, Phase.done⟩ := by
        cases st <;> simp [step]
      rw [hstep]
      exact ⟨h1, h2, fun ir iw hph => Phase.noConfusion hph⟩
  | scan ir iw =>
      obtain ⟨hiw, hrlt⟩ := h3 ir iw rfl
      by_cases hs : mem ir = 47
      · by_cases hp : is_tag_pre (upd mem iw 47) (ir + 1)
        · have hstep : step last ⟨mem, r, w, st, Phase.scan ir iw⟩ =
              ⟨upd (seqCopy (upd mem iw 47) (ir + 1) (iw + 1) 3) w
                   ((seqCopy (upd mem iw 47) (ir + 1) (iw + 1) 3) r),
               r + 1, w + 1, FState.text, Phase.outer⟩ := by
            simp [step, hs, hp]
          rw [hstep]
          refine ⟨by dsimp only; omega, by dsimp only; omega, ?_⟩
          intro ir' iw' hph
          exact Phase.noConfusion hph
        · have hstep : step last ⟨mem, r, w, st, Phase.scan ir iw⟩ =
              ⟨upd mem iw 47, r, w, st, Phase.scan (ir + 1) (iw + 1)⟩ := by
            simp [step, hs, hp]
          rw [hstep]
          refine ⟨by dsimp only; omega, by dsimp only; omega, ?_⟩
          intro ir' iw' hph
          have e1 : ir + 1 = ir' := by injection hph
          have e2 : iw + 1 = iw' := by injection hph
          exact ⟨by omega, by dsimp only; omega⟩
      · rw [step_scan_continue last mem r w st ir iw hs]
        refine ⟨by dsimp only; omega, by dsimp only; omega, ?_⟩
        intro ir' iw' hph
        have e1 : ir + 1 = ir' := by injection hph
        have e2 : iw + 1 = iw' := by injection hph
        exact ⟨by omega, by dsimp only; omega⟩
  | outer =>
      by_cases hr : r < last
      · cases st with
        | text =>
            by_cases hb : mem r = 13 ∨ mem r = 10
            · rw [step_text_skip last mem r w hr hb]
              refine ⟨by dsimp only; omega, by dsimp only; omega, ?_⟩
              intro ir iw hph
              exact Phase.noConfusion hph
            · by_cases h60 : mem r = 60
              · have hstep : step last ⟨mem, r, w, FState.text, Phase.outer⟩ =
                    ⟨upd (ngx_http_no_newlines_handle_tags mem r w FState.text).1 w
                         ((ngx_http_no_newlines_handle_tags mem r w FState.text).1 r),
                     r + 1, w + 1,
                     (ngx_http_no_newlines_handle_tags mem r w FState.text).2,
                     Phase.outer⟩ := by
                  simp [step, hr, hb, h60]
                rw [hstep]
                refine ⟨by dsimp only; omega, by dsimp only; omega, ?_⟩
                intro ir iw hph
                exact Phase.noConfusion hph
              · rw [step_text_copy_other last mem r w hr
                  (fun h => hb (Or.inl h)) (fun h => hb (Or.inr h)) h60]
                refine ⟨by dsimp only; omega, by dsimp only; omega, ?_⟩
                intro ir iw hph
                exact Phase.noConfusion hph
        | tag_pre =>
            have hstep : step last ⟨mem, r, w, FState.tag_pre, Phase.outer⟩ =
                ⟨mem, r, w, FState.tag_pre, Phase.scan r w⟩ := by
              simp [step, hr]
            rw [hstep]
            refine ⟨h1, h2, ?_⟩
            intro ir' iw' hph
            have e1 : r = ir' := by injection hph
            have e2 : w = iw' := by injection hph
            exact ⟨by omega, by dsimp only; omega⟩
        | abort =>
            have hstep : step last ⟨mem, r, w, FState.abort, Phase.outer⟩ =
                ⟨upd mem w (mem r), r + 1, w + 1, FState.abort, Phase.outer⟩ := by
              simp [step, hr]
            rw [hstep]
            refine ⟨by dsimp only; omega, by dsimp only; omega, ?_⟩
            intro ir iw hph
            exact Phase.noConfusion hph
      · have hstep : step last ⟨mem, r, w, st, Phase.outer⟩ =
            ⟨mem, r, w, st, Phase.done⟩ := by
          cases st <;> simp [step, hr]
        rw [hstep]
        exact ⟨h1, h2, fun ir iw hph => Phase.noConfusion hph⟩

theorem run_Inv (fuel last : Nat) (c : Cfg) (h : CursorInv last c) :
    CursorInv last (run fuel last c) := by
  induction fuel generalizing c with
  | zero => exact h
  | succ n ih => exact ih (step last c) (step_Inv last c h)

/- Helper facts for the two stuck-scanner runs. -/

theorem c4_mem_form :
    (run 3 (List.length c4buf) (initCfg (listMem c4buf) 0 FState.tag_pre)).mem =
      upd (upd (listMem c4buf) 0 120) 1 47 := rfl

theorem c4_noSlash : ∀ j, 2 ≤ j → upd (upd (listMem c4buf) 0 120) 1 47 j ≠ 47 := by
  intro j hj
  by_cases hj6 : j < 6
  · interval_cases j <;> decide
  · rw [upd_out _ _ _ _ (show j ≠ 1 by omega), upd_out _ _ _ _ (show j ≠ 0 by omega)]
    have hlen : List.length c4buf ≤ j := by
      have h6 : (6 : Nat) ≤ j := by omega
      exact h6
    rw [listMem_ge c4buf j hlen]
    decide

theorem c4_stuck : ∀ fuel : Nat,
    (run fuel (List.length c4buf) (initCfg (listMem c4buf) 0 FState.tag_pre)).ph ≠
      Phase.done ∧
    (run fuel (List.length c4buf) (initCfg (listMem c4buf) 0 FState.tag_pre)).st =
      FState.tag_pre := by
  intro fuel
  match fuel with
  | 0 => exact ⟨by decide, by decide⟩
  | 1 => exact ⟨by decide, by decide⟩
  | 2 => exact ⟨by decide, by decide⟩
  | (n + 3) =>
      have hrw : run (n + 3) (List.length c4buf) (initCfg (listMem c4buf) 0 FState.tag_pre) =
          run n (List.length c4buf)
            (run 3 (List.length c4buf) (initCfg (listMem c4buf) 0 FState.tag_pre)) := rfl
      rw [hrw]
      have hmem : ∀ j, 2 ≤ j →
          (run 3 (List.length c4buf) (initCfg (listMem c4buf) 0 FState.tag_pre)).mem j ≠ 47 := by
        intro j hj
        rw [c4_mem_form]
        exact c4_noSlash j hj
      have h := scanStuck n (List.length c4buf)
        (run 3 (List.length c4buf) (initCfg (listMem c4buf) 0 FState.tag_pre)) 2 2
        (by decide) (le_refl 2) hmem
      exact ⟨h.1, h.2.trans (by decide)⟩

theorem c7_mem_form :
    (run 2 (List.length c7buf) (initCfg (listMem c7buf) 0 FState.text)).mem =
      upd (seqCopy (upd (listMem c7buf) 0 60) 1 1 3) 0 60 := rfl

theorem c7_seq_form :
    seqCopy (upd (listMem c7buf) 0 60) 1 1 3 =
      upd (upd (upd (upd (listMem c7buf) 0 60) 1 112) 2 114) 3 101 := rfl

theorem c7_noSlash : ∀ j, 1 ≤ j →
    (run 2 (List.length c7buf) (initCfg (listMem c7buf) 0 FState.text)).mem j ≠ 47 := by
  intro j hj
  rw [c7_mem_form, c7_seq_form]
  by_cases hj4 : j < 4
  · interval_cases j <;> decide
  · rw [upd_out _ _ _ _ (show j ≠ 0 by omega), upd_out _ _ _ _ (show j ≠ 3 by omega),
      upd_out _ _ _ _ (show j ≠ 2 by omega), upd_out _ _ _ _ (show j ≠ 1 by omega),
      upd_out _ _ _ _ (show j ≠ 0 by omega)]
    have hlen : List.length c7buf ≤ j := by
      have h4 : (4 : Nat) ≤ j := by omega
      exact h4
    rw [listMem_ge c7buf j hlen]
    decide

theorem c7_notdone : ∀ fuel : Nat,
    (run fuel (List.length c7buf) (initCfg (listMem c7buf) 0 FState.text)).ph ≠
      Phase.done := by
  intro fuel
  match fuel with
  | 0 => decide
  | 1 => decide
  | (n + 2) =>
      have hrw : run (n + 2) (List.length c7buf) (initCfg (listMem c7buf) 0 FState.text) =
          run n (List.length c7buf)
            (run 2 (List.length c7buf) (initCfg (listMem c7buf) 0 FState.text)) := rfl
      rw [hrw]
      exact (scanStuck n (List.length c7buf)
        (run 2 (List.length c7buf) (initCfg (listMem c7buf) 0 FState.text)) 1 1
        (by decide) (le_refl 1) c7_noSlash).1

/-- C1: the claim says bytes inside a matched pre region pass through
    unchanged with the state entering InPreformatted on the opening tag.
    On the code, is_tag_pre compares 8 bytes (sizeof of a pointer), so it
    also requires a NUL right after "pre"; on the scenario input
    `"<pre>\r\nfoo\r\n</pre>"` the tag is never detected, the run stays in
    state_text, and the four CR/LF bytes inside the pre element are
    stripped: the output is `"<pre>foo</pre>"` (14 bytes of 18). -/
theorem pre_region_newlines_stripped :
    stripBufList 30 c1Input FState.text = some (c1Expected, FState.text) ∧
    List.length c1Input = 18 ∧ List.length c1Expected = 14 := by
  decide

/-- C2: the claim says is_tag_pre is true exactly when the 3 inspected bytes
    spell "pre" case-insensitively, independent of any further byte.  On the
    code it is false on the window "pre>" although its first 3 bytes spell
    "pre", and true on "pre" followed by NUL: the result depends on the
    fourth byte, because the length argument `sizeof("pre" - 1)` is 8. -/
theorem is_tag_pre_requires_nul_after_pre :
    is_tag_pre (listMem [112, 114, 101, 62]) 0 = false ∧
    is_tag_pre (listMem [112, 114, 101, 0]) 0 = true ∧
    listMem [112, 114, 101, 62] 0 = 112 ∧
    listMem [112, 114, 101, 62] 1 = 114 ∧
    listMem [112, 114, 101, 62] 2 = 101 := by
  decide

/-- C3: the claim says that on a match the dispatcher advances the buffer
    scan's read and write cursors past the three copied bytes (cursors at 4
    after the `<` iteration).  On the code, handle_tags receives the cursors
    by value, so after the dispatch iteration on `"<pre\0x"` the scan's
    cursors are both 1 (only the for-loop increment survives), the state is
    state_tag_pre, and the next iteration re-reads byte 1 (the 'p') inside
    the preformatted scanner. -/
theorem handle_tags_cursor_advance_lost :
    (run 1 6 (initCfg (listMem c3buf) 0 FState.text)).st = FState.tag_pre ∧
    (run 1 6 (initCfg (listMem c3buf) 0 FState.text)).r = 1 ∧
    (run 1 6 (initCfg (listMem c3buf) 0 FState.text)).w = 1 ∧
    (run 2 6 (initCfg (listMem c3buf) 0 FState.text)).ph = Phase.scan 1 1 := by
  decide

/-- C4: the claim says the scanner classifies the 3 bytes after a `/` for
    "pre" case-insensitively and on a match copies them and returns to Text.
    On the code the classifier also requires a NUL after "pre", so on the
    window `"x/pre>"` (state_tag_pre) the `/pre` is never recognised: for
    every fuel the machine is still scanning (never reaches done) and the
    state never returns to state_text. -/
theorem scanner_misses_close_pre : ∀ fuel : Nat,
    decide ((run fuel (List.length c4buf)
        (initCfg (listMem c4buf) 0 FState.tag_pre)).ph = Phase.done) = false ∧
    (run fuel (List.length c4buf) (initCfg (listMem c4buf) 0 FState.tag_pre)).st =
      FState.tag_pre := by
  intro fuel
  exact ⟨decide_eq_false (c4_stuck fuel).1, (c4_stuck fuel).2⟩

/-- C5: a buffer whose window contains no position where the code's pre-tag
    trigger fires (a `<` byte with is_tag_pre true just after it) is
    processed entirely in state_text; the machine completes, every 13 and 10
    byte is dropped, no other byte is dropped, and the final state is
    state_text. -/
theorem text_state_strips_exactly_crlf (mem : Mem) (pos last : Nat) (hpl : pos ≤ last)
    (H : ∀ i, pos ≤ i → i < last → mem i = 60 → is_tag_pre mem (i + 1) = false) :
    ngx_http_no_newlines_strip_buffer (last - pos + 1) mem pos last FState.text =
      some (writeZone mem pos (filterCRLF (readZone mem pos (last - pos))),
            pos + (filterCRLF (readZone mem pos (last - pos))).length, FState.text) ∧
    readZone (writeZone mem pos (filterCRLF (readZone mem pos (last - pos)))) pos
        (filterCRLF (readZone mem pos (last - pos))).length =
      filterCRLF (readZone mem pos (last - pos)) := by
  have hk := textRun (last - pos) mem pos pos last le_rfl (by omega) H
  constructor
  · show (if (run (last - pos + 1) last (initCfg mem pos FState.text)).ph = Phase.done
          then some ((run (last - pos + 1) last (initCfg mem pos FState.text)).mem,
                     (run (last - pos + 1) last (initCfg mem pos FState.text)).w,
                     (run (last - pos + 1) last (initCfg mem pos FState.text)).st)
          else none) = _
    have hinit : initCfg mem pos FState.text =
        ⟨mem, pos, pos, FState.text, Phase.outer⟩ := rfl
    rw [hinit, hk]
    simp
  · exact readZone_writeZone (filterCRLF (readZone mem pos (last - pos))) mem pos

theorem text_state_strips_exactly_crlf_witness :
    (0 ≤ 4 ∧
     (∀ i, 0 ≤ i → i < 4 → listMem [97, 13, 10, 98] i = 60 →
        is_tag_pre (listMem [97, 13, 10, 98]) (i + 1) = false)) ∧
    (ngx_http_no_newlines_strip_buffer (4 - 0 + 1) (listMem [97, 13, 10, 98]) 0 4
        FState.text =
      some (writeZone (listMem [97, 13, 10, 98]) 0
              (filterCRLF (readZone (listMem [97, 13, 10, 98]) 0 (4 - 0))),
            0 + (filterCRLF (readZone (listMem [97, 13, 10, 98]) 0 (4 - 0))).length,
            FState.text) ∧
     readZone (writeZone (listMem [97, 13, 10, 98]) 0
         (filterCRLF (readZone (listMem [97, 13, 10, 98]) 0 (4 - 0)))) 0
         (filterCRLF (readZone (listMem [97, 13, 10, 98]) 0 (4 - 0))).length =
       filterCRLF (readZone (listMem [97, 13, 10, 98]) 0 (4 - 0))) := by
  have hH : ∀ i, 0 ≤ i → i < 4 → listMem [97, 13, 10, 98] i = 60 →
      is_tag_pre (listMem [97, 13, 10, 98]) (i + 1) = false := by
    intro i h0 h4 h60
    interval_cases i <;> exact absurd h60 (by decide)
  exact ⟨⟨by omega, hH⟩,
    text_state_strips_exactly_crlf (listMem [97, 13, 10, 98]) 0 4 (by omega) hH⟩

/-- C6: the claim says the gate requires the content-type to match
    `text/html` case-insensitively as a prefix.  On the code the length
    argument is `sizeof("text/html" - 1)` = 8, so only "text/htm" is
    compared: for a 200, non-headers-only, unencoded response with
    content-type "text/htmQ" the filter attaches a context and clears the
    length/ranges headers, although the lowered 9th byte is 113 ('q'),
    not 108 ('l'), so "text/html" is not a case-insensitive prefix. -/
theorem header_filter_attaches_beyond_text_html :
    ngx_http_no_newlines_header_filter ⟨200, false, ctHtmQ, none⟩ =
      ⟨some FState.text, true, true⟩ ∧
    (ctHtmQ.map lowerByte).getD 8 0 = 113 ∧
    (textHtmlBytes.map lowerByte).getD 8 0 = 108 ∧
    List.length ctHtmQ = 9 := by
  decide

/-- C7: the claim says every body-filter invocation terminates on every
    finite buffer.  On the code, the buffer `"<pre"` (4 bytes, with zeroed
    memory beyond it) makes the classifier peek past the buffer end, match
    (NUL after "pre"), and enter the preformatted scanner, which then
    searches for a `/` byte beyond the buffer forever: no amount of fuel
    completes the invocation. -/
theorem body_filter_scan_overrun : ∀ fuel : Nat,
    ngx_http_no_newlines_body_filter fuel (some FState.text) [c7buf] = none := by
  intro fuel
  have hs : ngx_http_no_newlines_strip_buffer fuel (listMem c7buf) 0
      (List.length c7buf) FState.text = none := by
    unfold ngx_http_no_newlines_strip_buffer
    rw [if_neg (c7_notdone fuel)]
  have hsl : stripBufList fuel c7buf FState.text = none := by
    unfold stripBufList
    rw [hs]
  have hbg : body_go fuel FState.text [c7buf] = none := by
    unfold body_go
    rw [hsl]
  unfold ngx_http_no_newlines_body_filter
  rw [hbg]

/-- C8: during the processing of any buffer, from any starting state, the
    write cursor stays at or behind the read cursor (both for the outer
    strip_buffer cursors and for the scanner's own cursor pair), and the
    output length (write cursor minus pos) never exceeds the input length
    (last minus pos), at every step of the run. -/
theorem strip_cursor_write_le_read (fuel : Nat) (mem : Mem) (pos last : Nat)
    (st : FState) (hpl : pos ≤ last) :
    (run fuel last (initCfg mem pos st)).w ≤ (run fuel last (initCfg mem pos st)).r ∧
    (run fuel last (initCfg mem pos st)).w - pos ≤ last - pos ∧
    (∀ ir iw, (run fuel last (initCfg mem pos st)).ph = Phase.scan ir iw → iw ≤ ir) := by
  have h0 : CursorInv last (initCfg mem pos st) :=
    ⟨le_rfl, hpl, fun ir iw hph => Phase.noConfusion hph⟩
  obtain ⟨h1, h2, h3⟩ := run_Inv fuel last (initCfg mem pos st) h0
  exact ⟨h1, by omega, fun ir iw hph => (h3 ir iw hph).1⟩

theorem strip_cursor_write_le_read_witness :
    0 ≤ 2 ∧
    ((run 3 2 (initCfg (listMem [97, 13]) 0 FState.text)).w ≤
        (run 3 2 (initCfg (listMem [97, 13]) 0 FState.text)).r ∧
     (run 3 2 (initCfg (listMem [97, 13]) 0 FState.text)).w - 0 ≤ 2 - 0 ∧
     (∀ ir iw, (run 3 2 (initCfg (listMem [97, 13]) 0 FState.text)).ph =
        Phase.scan ir iw → iw ≤ ir)) :=
  ⟨by decide, strip_cursor_write_le_read 3 (listMem [97, 13]) 0 2 FState.text (by decide)⟩

/-- C9: the body filter sets the context state to state_text at the start of
    every invocation that has a context, so the result of an invocation is
    independent of whatever state (including state_tag_pre) the previous
    invocation left in the context. -/
theorem body_filter_resets_state_each_invocation (fuel : Nat) (s s' : FState)
    (bufs : List (List Nat)) :
    ngx_http_no_newlines_body_filter fuel (some s) bufs =
      ngx_http_no_newlines_body_filter fuel (some s') bufs := rfl

/-- C10: with no attached context the body filter forwards the chain to the
    next filter untouched: every buffer's bytes and logical length are
    returned exactly as received. -/
theorem body_filter_without_ctx_passthrough (fuel : Nat) (bufs : List (List Nat)) :
    ngx_http_no_newlines_body_filter fuel none bufs = some (bufs, none) := rfl
